import Mathlib

set_option maxHeartbeats 1000000

/-!
# A shallow embedding of the praft consensus module

This file embeds the state and the state-transforming operations of the
`ConsensusModule` in `raft.go` (package `raft`) and proves properties of the
election, log-replication and commit-advancement logic.

Conventions of the embedding:

* Go `int` is modelled as `Int`; all sentinel values (`-1` for "no vote",
  "no entry", "nothing committed") are kept as in the source.
* The opaque `interface{}` command payload is modelled as `Int` (the module
  never inspects it).
* `nextIndex` / `matchIndex` (`map[int]int` in Go) are association lists;
  `mapGet` returns the Go zero value `0` for a missing key, and `mapSet`
  shadows earlier bindings, which is observationally the Go map update.
* Wall-clock instants (`time.Time`) are abstract `Int` ticks; every operation
  that reads `time.Now()` takes the current tick `now` as an argument.
* The storage collaborator is modelled by one field holding the persisted
  triple `(currentTerm, votedFor, log)`; `persistToStorage` copies the
  in-memory fields into it.  `none` means `HasData() == false`.
* Go panics (negative or out-of-range slice indexing) are modelled by
  returning `none` from the operation; `appendEntries` can panic in Go when
  `args.PrevLogIndex < -1` yet `args.PrevLogIndex < len(cm.log)`, and the
  leader's argument construction panics when `nextIndex[peer]` is outside
  `[0, len(log)]`, hence those two are `Option`-valued.
* Mutex acquisition and channel sends are side effects invisible in the state
  functions; they are modelled separately as event traces (`Ev`) emitted by
  each code path, with one trace function per path mirroring the branch
  structure of the corresponding Go function.
-/

namespace Praft

/-- `CMState` from raft.go: the four roles of a replica. -/
inductive CMState
  | Follower
  | Candidate
  | Leader
  | Dead
  deriving DecidableEq

/-- `LogEntry` from raft.go: an opaque command together with the term in
which a leader created the entry. -/
structure LogEntry where
  command : Int
  term : Int
  deriving DecidableEq

/-- Default entry used to totalise list indexing (`cm.log[i]` in Go). -/
def defaultEntry : LogEntry := ⟨0, 0⟩

/-- `RequestVoteArgs` from raft.go. -/
structure RequestVoteArgs where
  term : Int
  candidateId : Int
  lastLogIndex : Int
  lastLogTerm : Int
  deriving DecidableEq

/-- `RequestVoteReply` from raft.go. -/
structure RequestVoteReply where
  term : Int
  votedGranted : Bool
  deriving DecidableEq

/-- `AppendEntriesArgs` from raft.go. -/
structure AppendEntriesArgs where
  term : Int
  leaderId : Int
  prevLogIndex : Int
  prevLogTerm : Int
  entries : List LogEntry
  leaderCommit : Int
  deriving DecidableEq

/-- `AppendEntriesReply` from raft.go. -/
structure AppendEntriesReply where
  term : Int
  success : Bool
  deriving DecidableEq

/-- The mutex-protected state record of `ConsensusModule` in raft.go.
The concurrency handles (`mu`, `server`, the channels) are not state; the
channel traffic is modelled by the event traces further below. -/
structure ConsensusModule where
  id : Int
  peerIds : List Int
  currentTerm : Int
  votedFor : Int
  log : List LogEntry
  commitIndex : Int
  lastApplied : Int
  state : CMState
  electionResetEvent : Int
  nextIndex : List (Int × Int)
  matchIndex : List (Int × Int)
  storage : Option (Int × Int × List LogEntry)
  deriving DecidableEq

/-- Go map read: first matching key, zero value `0` when absent. -/
def mapGet (m : List (Int × Int)) (k : Int) : Int :=
  match m with
  | [] => 0
  | (k', v) :: r => if k' = k then v else mapGet r k

/-- Go map write, as a shadowing prepend (observationally equal through
`mapGet`). -/
def mapSet (m : List (Int × Int)) (k v : Int) : List (Int × Int) :=
  (k, v) :: m

/-- `NewConsensusModule` in raft.go, restricted to its state initialisation
(the fresh-start case, `storage.HasData() == false`). -/
def mkConsensusModule (id : Int) (peerIds : List Int) : ConsensusModule :=
  { id := id
    peerIds := peerIds
    currentTerm := 0
    votedFor := -1
    log := []
    commitIndex := -1
    lastApplied := -1
    state := CMState.Follower
    electionResetEvent := 0
    nextIndex := []
    matchIndex := []
    storage := none }

/-- `persistToStorage` in raft.go: writes the keys `currentTerm`, `votedFor`
and `log` to storage, synchronously. -/
def persistToStorage (cm : ConsensusModule) : ConsensusModule :=
  { cm with storage := some (cm.currentTerm, cm.votedFor, cm.log) }

/-- `becomeFollower` in raft.go (the state mutation; the spawned election
timer is a background task outside the state). -/
def becomeFollower (cm : ConsensusModule) (term : Int) (now : Int) :
    ConsensusModule :=
  { cm with
    state := CMState.Follower
    currentTerm := term
    votedFor := -1
    electionResetEvent := now }

/-- `lastLogIndexAndTerm` in raft.go. -/
def lastLogIndexAndTerm (cm : ConsensusModule) : Int × Int :=
  if cm.log.length > 0 then
    ((cm.log.length : Int) - 1, (cm.log.getD (cm.log.length - 1) defaultEntry).term)
  else
    (-1, -1)

/-- The state change performed by `startElection` in raft.go under the mutex
(lines 200–204): become Candidate, bump the term, vote for self, reset the
election deadline.  Dispatching the vote RPCs is I/O outside the state. -/
def startElection (cm : ConsensusModule) (now : Int) : ConsensusModule :=
  { cm with
    state := CMState.Candidate
    currentTerm := cm.currentTerm + 1
    electionResetEvent := now
    votedFor := cm.id }

/-- `Submit` in raft.go: on a Leader, append `LogEntry{command, currentTerm}`,
persist, and return true; otherwise return false and change nothing. -/
def submit (cm : ConsensusModule) (command : Int) : ConsensusModule × Bool :=
  if cm.state = CMState.Leader then
    (persistToStorage
      { cm with log := cm.log ++ [{ command := command, term := cm.currentTerm }] },
      true)
  else
    (cm, false)

/-- The vote decision and reply of `RequestVote` in raft.go, after the
term-catch-up step: `cm1` is the post-catch-up state, `ll` the pair
`(lastLogIndex, lastLogTerm)` computed at entry. -/
def requestVoteCore (cm1 : ConsensusModule) (ll : Int × Int)
    (args : RequestVoteArgs) (now : Int) :
    ConsensusModule × RequestVoteReply :=
  if cm1.currentTerm = args.term ∧
      (cm1.votedFor = -1 ∨ cm1.votedFor = args.candidateId) ∧
      (args.lastLogTerm > ll.2 ∨
        (args.lastLogTerm = ll.2 ∧ args.lastLogIndex ≥ ll.1)) then
    ({ cm1 with votedFor := args.candidateId, electionResetEvent := now },
      { term := cm1.currentTerm, votedGranted := true })
  else
    (cm1, { term := cm1.currentTerm, votedGranted := false })

/-- `RequestVote` in raft.go.  A Dead replica returns without touching the
reply, so the caller observes the zero-valued reply `(0, false)`.  Note the
handler never calls `persistToStorage`. -/
def requestVote (cm : ConsensusModule) (args : RequestVoteArgs) (now : Int) :
    ConsensusModule × RequestVoteReply :=
  if cm.state = CMState.Dead then
    (cm, { term := 0, votedGranted := false })
  else
    requestVoteCore
      (if args.term > cm.currentTerm then becomeFollower cm args.term now else cm)
      (lastLogIndexAndTerm cm) args now

/-- The matching loop of `AppendEntries` in raft.go (lines 570–579): how many
leading entries of the two suffixes carry pairwise equal terms.  The Go loop
ends as soon as either index runs off its slice or the terms differ. -/
def termMatchLen : List LogEntry → List LogEntry → Nat
  | [], _ => 0
  | _ :: _, [] => 0
  | x :: xs, y :: ys =>
    if x.term = y.term then termMatchLen xs ys + 1 else 0

/-- The log reconciliation of `AppendEntries` (lines 567–585): with
`li = prevLogIndex + 1`, skip the already-matching prefix of the incoming
entries and, if any entries remain, truncate the local log at the divergence
point and append them. -/
def reconcileLog (log : List LogEntry) (li : Nat) (entries : List LogEntry) :
    List LogEntry :=
  let k := termMatchLen (log.drop li) entries
  if k < entries.length then log.take (li + k) ++ entries.drop k else log

/-- The accepted-request state update of `AppendEntries` (lines 566–591):
reconcile the log, then raise `commitIndex` to
`min(leaderCommit, len(log) - 1)` when the leader's commit index is ahead. -/
def appendEntriesAccept (cm3 : ConsensusModule) (args : AppendEntriesArgs) :
    ConsensusModule :=
  let newLog := reconcileLog cm3.log (args.prevLogIndex + 1).toNat args.entries
  if args.leaderCommit > cm3.commitIndex then
    { cm3 with
      log := newLog
      commitIndex := min args.leaderCommit ((newLog.length : Int) - 1) }
  else
    { cm3 with log := newLog }

/-- The consistency check and log work of `AppendEntries`, in the same-term
branch, on the state `cm3` that already reset the election timer.  The first
guard is the Go panic: `cm.log[args.PrevLogIndex]` with a negative index is
evaluated whenever `args.PrevLogIndex ≠ -1` and `args.PrevLogIndex <
len(cm.log)`. -/
def appendEntriesCore (cm3 : ConsensusModule) (args : AppendEntriesArgs) :
    Option (ConsensusModule × AppendEntriesReply) :=
  if args.prevLogIndex ≠ -1 ∧ args.prevLogIndex < (cm3.log.length : Int) ∧
      args.prevLogIndex < 0 then
    none
  else if args.prevLogIndex = -1 ∨
      (args.prevLogIndex < (cm3.log.length : Int) ∧
        (cm3.log.getD args.prevLogIndex.toNat defaultEntry).term = args.prevLogTerm) then
    some (appendEntriesAccept cm3 args,
      { term := cm3.currentTerm, success := true })
  else
    some (cm3, { term := cm3.currentTerm, success := false })

/-- Lines 557–561 of `AppendEntries`: a non-Follower of the same term steps
down, and the election timer is reset. -/
def aeBody (cm1 : ConsensusModule) (args : AppendEntriesArgs) (now : Int) :
    ConsensusModule :=
  { (if cm1.state ≠ CMState.Follower then becomeFollower cm1 args.term now else cm1) with
    electionResetEvent := now }

/-- The body of `AppendEntries` after the Dead check and the term catch-up:
`cm1` is the (possibly caught-up) state.  Same-term requests reset the timer
and run the consistency check; others are rejected with the current term. -/
def appendEntriesOnLive (cm1 : ConsensusModule) (args : AppendEntriesArgs)
    (now : Int) : Option (ConsensusModule × AppendEntriesReply) :=
  if args.term = cm1.currentTerm then
    appendEntriesCore (aeBody cm1 args now) args
  else
    some (cm1, { term := cm1.currentTerm, success := false })

/-- `AppendEntries` in raft.go.  A Dead replica leaves the zero-valued reply;
the reply's term is the replica's (possibly caught-up) current term.  Note
the handler never calls `persistToStorage`. -/
def appendEntries (cm : ConsensusModule) (args : AppendEntriesArgs) (now : Int) :
    Option (ConsensusModule × AppendEntriesReply) :=
  if cm.state = CMState.Dead then
    some (cm, { term := 0, success := false })
  else
    appendEntriesOnLive
      (if args.term > cm.currentTerm then becomeFollower cm args.term now else cm)
      args now

/-- The per-peer argument construction of `sendAppendEntries` (lines 351–368),
performed under the mutex: `none` is the Go panic when `nextIndex[peer]` is
outside `[0, len(log)]` (slicing `cm.log[ni:]`). -/
def buildAppendEntriesArgs (cm : ConsensusModule) (savedCurrentTerm : Int)
    (peerId : Int) : Option AppendEntriesArgs :=
  let ni := mapGet cm.nextIndex peerId
  if ni < 0 ∨ (cm.log.length : Int) < ni then
    none
  else
    some
      { term := savedCurrentTerm
        leaderId := cm.id
        prevLogIndex := ni - 1
        prevLogTerm :=
          if ni - 1 ≥ 0 then (cm.log.getD (ni - 1).toNat defaultEntry).term else -1
        entries := cm.log.drop ni.toNat
        leaderCommit := cm.commitIndex }

/-- The replica count of the commit scan (lines 389–394): the leader itself
plus every peer whose `matchIndex` reached `i`. -/
def matchCountAt (peers : List Int) (mi : List (Int × Int)) (i : Int) : Nat :=
  1 + (peers.filter (fun p => decide (mapGet mi p ≥ i))).length

/-- The indices the commit scan of `sendAppendEntries` visits, in order:
`i` from `commitIndex + 1` while `i < len(log)`.  (For `commitIndex < -1`
the Go loop would index the log negatively and panic; every reachable state
has `commitIndex ≥ -1`.) -/
def commitScanIdxs (logLen : Nat) (ci : Int) : List Int :=
  ((List.range logLen).map (fun n : Nat => (n : Int))).filter (fun i => decide (ci < i))

/-- The commit-advancement scan of `sendAppendEntries` (lines 385–399): the
last visited index whose entry is of the current term and is on a majority,
or the old `commitIndex` when there is none. -/
def advanceCommitIndex (log : List LogEntry) (tm : Int) (peers : List Int)
    (mi : List (Int × Int)) (ci : Int) : Int :=
  (commitScanIdxs log.length ci).foldl
    (fun acc i =>
      if (log.getD i.toNat defaultEntry).term = tm ∧
          matchCountAt peers mi i * 2 > peers.length + 1 then
        i
      else acc)
    ci

/-- The reply processing of `sendAppendEntries` (lines 373–411), run when the
RPC to `peerId` returns: `savedCurrentTerm` and `ni` are the values captured
when the RPC was built, `numEntries` the number of entries it carried. -/
def processAppendReply (cm : ConsensusModule) (peerId savedCurrentTerm ni : Int)
    (numEntries : Nat) (reply : AppendEntriesReply) (now : Int) :
    ConsensusModule :=
  if reply.term > savedCurrentTerm then
    becomeFollower cm reply.term now
  else if cm.state = CMState.Leader ∧ savedCurrentTerm = reply.term then
    if reply.success then
      let nextIndex' := mapSet cm.nextIndex peerId (ni + (numEntries : Int))
      let matchIndex' := mapSet cm.matchIndex peerId (mapGet nextIndex' peerId - 1)
      { cm with
        nextIndex := nextIndex'
        matchIndex := matchIndex'
        commitIndex :=
          advanceCommitIndex cm.log cm.currentTerm cm.peerIds matchIndex' cm.commitIndex }
    else
      { cm with nextIndex := mapSet cm.nextIndex peerId (ni - 1) }
  else
    cm

/-- The four mutex-protected operations a single replica's persistent fields
can undergo, for reasoning about operation sequences. -/
inductive Op
  | requestVoteOp (args : RequestVoteArgs) (now : Int)
  | appendEntriesOp (args : AppendEntriesArgs) (now : Int)
  | startElectionOp (now : Int)
  | becomeFollowerOp (term : Int) (now : Int)

/-- Apply one operation to the replica state (the Go panic case of
`appendEntries` is treated as no state change). -/
def applyOp (cm : ConsensusModule) (op : Op) : ConsensusModule :=
  match op with
  | Op.requestVoteOp args now => (requestVote cm args now).1
  | Op.appendEntriesOp args now =>
    match appendEntries cm args now with
    | some r => r.1
    | none => cm
  | Op.startElectionOp now => startElection cm now
  | Op.becomeFollowerOp t now => becomeFollower cm t now

/-- Run a sequence of operations from a state. -/
def runOps (cm : ConsensusModule) (ops : List Op) : ConsensusModule :=
  ops.foldl applyOp cm

end Praft


namespace Praft

/-! ## Helper lemmas about lists and the matching loop -/

theorem getD_cons_zero (x : LogEntry) (xs : List LogEntry) (d : LogEntry) :
    (x :: xs).getD 0 d = x := rfl

theorem getD_cons_succ (x : LogEntry) (xs : List LogEntry) (n : Nat) (d : LogEntry) :
    (x :: xs).getD (n + 1) d = xs.getD n d := rfl

theorem mapGet_mapSet_self (m : List (Int × Int)) (k v : Int) :
    mapGet (mapSet m k v) k = v := by
  simp [mapGet, mapSet]

theorem take_drop_shift {α : Type} (l : List α) (li k : Nat) :
    (l.take (li + k)).drop li = (l.drop li).take k := by
  induction l generalizing li with
  | nil => simp
  | cons x xs ih =>
    cases li with
    | zero => simp
    | succ n =>
      have : n + 1 + k = (n + k) + 1 := by omega
      rw [this]
      simpa using ih n

theorem drop_append_of_le {α : Type} (l₁ l₂ : List α) (n : Nat) (h : n ≤ l₁.length) :
    (l₁ ++ l₂).drop n = l₁.drop n ++ l₂ := by
  induction l₁ generalizing n with
  | nil => simp at h; simp [h]
  | cons x xs ih =>
    cases n with
    | zero => simp
    | succ m => simpa using ih m (by simpa using h)

theorem getD_take_of_lt {α : Type} (l : List α) (m n : Nat) (d : α) (h : n < m) :
    (l.take m).getD n d = l.getD n d := by
  induction l generalizing m n with
  | nil => simp
  | cons x xs ih =>
    cases m with
    | zero => omega
    | succ m' =>
      cases n with
      | zero => rfl
      | succ n' => simpa using ih m' n' (by omega)

theorem getD_drop_add {α : Type} (l : List α) (n i : Nat) (d : α) :
    (l.drop n).getD i d = l.getD (n + i) d := by
  induction l generalizing n with
  | nil => simp
  | cons x xs ih =>
    cases n with
    | zero => simp
    | succ m =>
      have : m + 1 + i = (m + i) + 1 := by omega
      rw [this]
      exact ih m

theorem termMatchLen_le_right (a b : List LogEntry) : termMatchLen a b ≤ b.length := by
  induction a generalizing b with
  | nil => simp [termMatchLen]
  | cons x xs ih =>
    cases b with
    | nil => simp [termMatchLen]
    | cons y ys =>
      by_cases h : x.term = y.term
      · have := ih ys
        simp only [termMatchLen, h, if_pos, List.length_cons]
        omega
      · simp [termMatchLen, h]

theorem termMatchLen_le_left (a b : List LogEntry) : termMatchLen a b ≤ a.length := by
  induction a generalizing b with
  | nil => simp [termMatchLen]
  | cons x xs ih =>
    cases b with
    | nil => simp [termMatchLen]
    | cons y ys =>
      by_cases h : x.term = y.term
      · have := ih ys
        simp only [termMatchLen, h, if_pos, List.length_cons]
        omega
      · simp [termMatchLen, h]

theorem termMatchLen_self (l : List LogEntry) : termMatchLen l l = l.length := by
  induction l with
  | nil => simp [termMatchLen]
  | cons x xs ih => simp [termMatchLen, ih]

theorem termMatchLen_take_append (a b : List LogEntry)
    (h : termMatchLen a b < b.length) :
    termMatchLen (a.take (termMatchLen a b) ++ b.drop (termMatchLen a b)) b
      = b.length := by
  induction a generalizing b with
  | nil => simpa [termMatchLen] using termMatchLen_self b
  | cons x xs ih =>
    cases b with
    | nil => simp [termMatchLen] at h
    | cons y ys =>
      by_cases hxy : x.term = y.term
      · have hk : termMatchLen (x :: xs) (y :: ys) = termMatchLen xs ys + 1 := by
          simp [termMatchLen, hxy]
        rw [hk] at h ⊢
        have h' : termMatchLen xs ys < ys.length := by
          simpa using h
        have := ih ys h'
        simp only [List.take_succ_cons, List.drop_succ_cons, List.cons_append]
        simp only [termMatchLen, hxy, if_pos, List.length_cons]
        omega
      · have hk : termMatchLen (x :: xs) (y :: ys) = 0 := by
          simp [termMatchLen, hxy]
        rw [hk]
        simpa using termMatchLen_self (y :: ys)

theorem termMatchLen_lt_spec (a b : List LogEntry) (i : Nat)
    (h : i < termMatchLen a b) :
    i < a.length ∧ i < b.length ∧
      (a.getD i defaultEntry).term = (b.getD i defaultEntry).term := by
  induction a generalizing b i with
  | nil => simp [termMatchLen] at h
  | cons x xs ih =>
    cases b with
    | nil => simp [termMatchLen] at h
    | cons y ys =>
      by_cases hxy : x.term = y.term
      · have hk : termMatchLen (x :: xs) (y :: ys) = termMatchLen xs ys + 1 := by
          simp [termMatchLen, hxy]
        rw [hk] at h
        cases i with
        | zero => simpa [getD_cons_zero] using hxy
        | succ i' =>
          have := ih ys i' (by omega)
          simp only [List.length_cons, getD_cons_succ]
          exact ⟨by omega, by omega, this.2.2⟩
      · simp [termMatchLen, hxy] at h

theorem termMatchLen_at_spec (a b : List LogEntry)
    (h : termMatchLen a b < b.length) :
    a.length ≤ termMatchLen a b ∨
      (a.getD (termMatchLen a b) defaultEntry).term
        ≠ (b.getD (termMatchLen a b) defaultEntry).term := by
  induction a generalizing b with
  | nil => left; simp [termMatchLen]
  | cons x xs ih =>
    cases b with
    | nil => simp [termMatchLen] at h
    | cons y ys =>
      by_cases hxy : x.term = y.term
      · have hk : termMatchLen (x :: xs) (y :: ys) = termMatchLen xs ys + 1 := by
          simp [termMatchLen, hxy]
        rw [hk] at h ⊢
        have h' : termMatchLen xs ys < ys.length := by simpa using h
        rcases ih ys h' with h1 | h2
        · left; simp only [List.length_cons]; omega
        · right; simpa [getD_cons_succ] using h2
      · have hk : termMatchLen (x :: xs) (y :: ys) = 0 := by
          simp [termMatchLen, hxy]
        rw [hk]
        right
        simpa [getD_cons_zero] using hxy

end Praft

namespace Praft

/-! ## Properties of the log reconciliation -/

theorem reconcileLog_length_ge (log entries : List LogEntry) (li : Nat)
    (hli : li ≤ log.length) :
    li ≤ (reconcileLog log li entries).length := by
  unfold reconcileLog
  by_cases hk : termMatchLen (log.drop li) entries < entries.length
  · simp only [hk, if_pos]
    have h1 : termMatchLen (log.drop li) entries ≤ log.length - li :=
      le_trans (termMatchLen_le_left _ _) (by simp)
    simp [List.length_take, List.length_append]
    omega
  · simpa [hk] using hli

theorem reconcileLog_getD_lt (log entries : List LogEntry) (li n : Nat) (d : LogEntry)
    (hli : li ≤ log.length) (hn : n < li) :
    (reconcileLog log li entries).getD n d = log.getD n d := by
  unfold reconcileLog
  by_cases hk : termMatchLen (log.drop li) entries < entries.length
  · simp only [hk, if_pos]
    have h1 : n < (log.take (li + termMatchLen (log.drop li) entries)).length := by
      simp [List.length_take]
      constructor <;> omega
    rw [List.getD_append _ _ _ _ h1]
    exact getD_take_of_lt _ _ _ _ (by omega)
  · simp [hk]

theorem reconcileLog_drop (log entries : List LogEntry) (li : Nat)
    (hli : li ≤ log.length)
    (hk : termMatchLen (log.drop li) entries < entries.length) :
    (reconcileLog log li entries).drop li =
      (log.drop li).take (termMatchLen (log.drop li) entries) ++
        entries.drop (termMatchLen (log.drop li) entries) := by
  unfold reconcileLog
  simp only [hk, if_pos]
  have h1 : termMatchLen (log.drop li) entries ≤ log.length - li :=
    le_trans (termMatchLen_le_left _ _) (by simp)
  have h2 : li ≤ (log.take (li + termMatchLen (log.drop li) entries)).length := by
    simp [List.length_take]
    omega
  rw [drop_append_of_le _ _ _ h2, take_drop_shift]

theorem reconcileLog_of_all_match (log entries : List LogEntry) (li : Nat)
    (h : ¬ termMatchLen (log.drop li) entries < entries.length) :
    reconcileLog log li entries = log := by
  unfold reconcileLog
  simp [h]

theorem reconcileLog_idem (log entries : List LogEntry) (li : Nat)
    (hli : li ≤ log.length) :
    reconcileLog (reconcileLog log li entries) li entries =
      reconcileLog log li entries := by
  by_cases hk : termMatchLen (log.drop li) entries < entries.length
  · have hdrop := reconcileLog_drop log entries li hli hk
    have hfull :
        termMatchLen ((reconcileLog log li entries).drop li) entries
          = entries.length := by
      rw [hdrop]
      exact termMatchLen_take_append (log.drop li) entries hk
    exact reconcileLog_of_all_match _ _ _ (by rw [hfull]; omega)
  · have hid := reconcileLog_of_all_match log entries li hk
    rw [hid, hid]

end Praft

namespace Praft

/-! ## Control-flow equations for the AppendEntries handler -/

theorem aeBody_log (cm1 : ConsensusModule) (args : AppendEntriesArgs) (now : Int) :
    (aeBody cm1 args now).log = cm1.log := by
  unfold aeBody becomeFollower
  split <;> rfl

theorem aeBody_commitIndex (cm1 : ConsensusModule) (args : AppendEntriesArgs) (now : Int) :
    (aeBody cm1 args now).commitIndex = cm1.commitIndex := by
  unfold aeBody becomeFollower
  split <;> rfl

theorem aeBody_state (cm1 : ConsensusModule) (args : AppendEntriesArgs) (now : Int) :
    (aeBody cm1 args now).state = CMState.Follower := by
  unfold aeBody becomeFollower
  split
  · rfl
  · next h =>
    simp only [ne_eq, not_not] at h
    simp [h]

theorem aeBody_currentTerm (cm1 : ConsensusModule) (args : AppendEntriesArgs) (now : Int)
    (ht : args.term = cm1.currentTerm) :
    (aeBody cm1 args now).currentTerm = cm1.currentTerm := by
  unfold aeBody becomeFollower
  split <;> simp [← ht]

theorem appendEntries_same_term (cm : ConsensusModule) (args : AppendEntriesArgs) (now : Int)
    (hd : cm.state ≠ CMState.Dead) (ht : args.term = cm.currentTerm) :
    appendEntries cm args now = appendEntriesCore (aeBody cm args now) args := by
  unfold appendEntries
  rw [if_neg hd]
  have hngt : ¬ args.term > cm.currentTerm := by omega
  rw [if_neg hngt]
  unfold appendEntriesOnLive
  rw [if_pos ht]

theorem appendEntriesCore_accept (cm3 : ConsensusModule) (args : AppendEntriesArgs)
    (hacc : args.prevLogIndex = -1 ∨
      (0 ≤ args.prevLogIndex ∧ args.prevLogIndex < (cm3.log.length : Int) ∧
        (cm3.log.getD args.prevLogIndex.toNat defaultEntry).term = args.prevLogTerm)) :
    appendEntriesCore cm3 args =
      some (appendEntriesAccept cm3 args, { term := cm3.currentTerm, success := true }) := by
  unfold appendEntriesCore
  have hnp : ¬ (args.prevLogIndex ≠ -1 ∧ args.prevLogIndex < (cm3.log.length : Int) ∧
      args.prevLogIndex < 0) := by
    rcases hacc with h | ⟨h0, _, _⟩
    · simp [h]
    · rintro ⟨_, _, hneg⟩
      omega
  rw [if_neg hnp]
  have hacc' : args.prevLogIndex = -1 ∨
      (args.prevLogIndex < (cm3.log.length : Int) ∧
        (cm3.log.getD args.prevLogIndex.toNat defaultEntry).term = args.prevLogTerm) := by
    rcases hacc with h | ⟨_, h1, h2⟩
    · exact Or.inl h
    · exact Or.inr ⟨h1, h2⟩
  rw [if_pos hacc']

theorem appendEntriesCore_reject (cm3 : ConsensusModule) (args : AppendEntriesArgs)
    (hp : -1 ≤ args.prevLogIndex)
    (hrej : ¬ (args.prevLogIndex = -1 ∨
      (args.prevLogIndex < (cm3.log.length : Int) ∧
        (cm3.log.getD args.prevLogIndex.toNat defaultEntry).term = args.prevLogTerm))) :
    appendEntriesCore cm3 args =
      some (cm3, { term := cm3.currentTerm, success := false }) := by
  unfold appendEntriesCore
  have hnp : ¬ (args.prevLogIndex ≠ -1 ∧ args.prevLogIndex < (cm3.log.length : Int) ∧
      args.prevLogIndex < 0) := by
    rintro ⟨h1, _, h3⟩
    omega
  rw [if_neg hnp, if_neg hrej]

theorem appendEntriesAccept_log (cm3 : ConsensusModule) (args : AppendEntriesArgs) :
    (appendEntriesAccept cm3 args).log =
      reconcileLog cm3.log (args.prevLogIndex + 1).toNat args.entries := by
  unfold appendEntriesAccept
  split <;> rfl

theorem appendEntriesAccept_currentTerm (cm3 : ConsensusModule) (args : AppendEntriesArgs) :
    (appendEntriesAccept cm3 args).currentTerm = cm3.currentTerm := by
  unfold appendEntriesAccept
  split <;> rfl

theorem appendEntriesAccept_state (cm3 : ConsensusModule) (args : AppendEntriesArgs) :
    (appendEntriesAccept cm3 args).state = cm3.state := by
  unfold appendEntriesAccept
  split <;> rfl

end Praft

namespace Praft

/-- C7: for an AppendEntries call on a non-Dead replica whose term equals
`currentTerm`, the request is accepted iff `prevLogIndex = -1`, or
`prevLogIndex < len(log)` and the entry there carries `prevLogTerm`; on
accept the log advances over the longest term-matching prefix of the
incoming entries (`k` entries), is truncated at the first divergence, and
the remaining incoming entries are appended (no change when all incoming
entries already match). -/
theorem appendEntries_accept_characterization (cm : ConsensusModule)
    (args : AppendEntriesArgs) (now : Int)
    (hd : cm.state ≠ CMState.Dead) (ht : args.term = cm.currentTerm)
    (hp : -1 ≤ args.prevLogIndex) :
    ∃ cm' reply, appendEntries cm args now = some (cm', reply) ∧
      (reply.success = true ↔
        (args.prevLogIndex = -1 ∨
          (args.prevLogIndex < (cm.log.length : Int) ∧
            (cm.log.getD args.prevLogIndex.toNat defaultEntry).term = args.prevLogTerm))) ∧
      (reply.success = true →
        ∃ k, k ≤ args.entries.length ∧
          (∀ i, i < k →
            (args.prevLogIndex + 1).toNat + i < cm.log.length ∧
            (cm.log.getD ((args.prevLogIndex + 1).toNat + i) defaultEntry).term
              = (args.entries.getD i defaultEntry).term) ∧
          (k < args.entries.length →
            cm.log.length ≤ (args.prevLogIndex + 1).toNat + k ∨
            (cm.log.getD ((args.prevLogIndex + 1).toNat + k) defaultEntry).term
              ≠ (args.entries.getD k defaultEntry).term) ∧
          (k = args.entries.length → cm'.log = cm.log) ∧
          (k < args.entries.length →
            cm'.log = cm.log.take ((args.prevLogIndex + 1).toNat + k)
              ++ args.entries.drop k)) := by
  rw [appendEntries_same_term cm args now hd ht]
  have hblog : (aeBody cm args now).log = cm.log := aeBody_log cm args now
  by_cases hacc : args.prevLogIndex = -1 ∨
      (args.prevLogIndex < (cm.log.length : Int) ∧
        (cm.log.getD args.prevLogIndex.toNat defaultEntry).term = args.prevLogTerm)
  · have hacc0 : args.prevLogIndex = -1 ∨
        (0 ≤ args.prevLogIndex ∧
          args.prevLogIndex < ((aeBody cm args now).log.length : Int) ∧
          ((aeBody cm args now).log.getD args.prevLogIndex.toNat defaultEntry).term
            = args.prevLogTerm) := by
      rw [hblog]
      by_cases hm : args.prevLogIndex = -1
      · exact Or.inl hm
      · rcases hacc with h | ⟨h1, h2⟩
        · exact Or.inl h
        · exact Or.inr ⟨by omega, h1, h2⟩
    rw [appendEntriesCore_accept (aeBody cm args now) args hacc0]
    refine ⟨_, _, rfl, by simpa using hacc, ?_⟩
    intro _
    have hli : (args.prevLogIndex + 1).toNat ≤ cm.log.length := by
      rcases hacc with h | ⟨h1, _⟩ <;> omega
    refine ⟨termMatchLen (cm.log.drop (args.prevLogIndex + 1).toNat) args.entries,
      termMatchLen_le_right _ _, ?_, ?_, ?_, ?_⟩
    · intro i hi
      have h3 := termMatchLen_lt_spec _ _ i hi
      have hlen : i < (cm.log.drop (args.prevLogIndex + 1).toNat).length := h3.1
      rw [List.length_drop] at hlen
      refine ⟨by omega, ?_⟩
      rw [← getD_drop_add]
      exact h3.2.2
    · intro hk
      rcases termMatchLen_at_spec _ _ hk with h1 | h2
      · left
        have hlen : (cm.log.drop (args.prevLogIndex + 1).toNat).length
            = cm.log.length - (args.prevLogIndex + 1).toNat := by
          simp
        omega
      · right
        rw [← getD_drop_add]
        exact h2
    · intro hk
      rw [appendEntriesAccept_log, hblog]
      exact reconcileLog_of_all_match _ _ _ (by omega)
    · intro hk
      rw [appendEntriesAccept_log, hblog]
      unfold reconcileLog
      simp only [hk, if_pos]
  · have haccb : ¬ (args.prevLogIndex = -1 ∨
        (args.prevLogIndex < ((aeBody cm args now).log.length : Int) ∧
          ((aeBody cm args now).log.getD args.prevLogIndex.toNat defaultEntry).term
            = args.prevLogTerm)) := by
      rw [hblog]
      exact hacc
    rw [appendEntriesCore_reject (aeBody cm args now) args hp haccb]
    refine ⟨_, _, rfl, by simpa using hacc, ?_⟩
    intro h
    simp at h

end Praft

namespace Praft

/-- Replay idempotence in the case where the request's term already equals
the replica's current term (helper for the general statement below). -/
theorem appendEntries_replay_of_eq_term (cm : ConsensusModule)
    (args : AppendEntriesArgs) (now now' : Int)
    (cm1 : ConsensusModule) (r1 : AppendEntriesReply)
    (hd : cm.state ≠ CMState.Dead) (ht : args.term = cm.currentTerm)
    (hp : -1 ≤ args.prevLogIndex)
    (h1 : appendEntries cm args now = some (cm1, r1)) (hs : r1.success = true) :
    ∃ cm2 r2, appendEntries cm1 args now' = some (cm2, r2) ∧ r2.success = true ∧
      cm2.log = cm1.log := by
  have hblog : (aeBody cm args now).log = cm.log := aeBody_log cm args now
  rw [appendEntries_same_term cm args now hd ht] at h1
  by_cases hacc : args.prevLogIndex = -1 ∨
      (args.prevLogIndex < (cm.log.length : Int) ∧
        (cm.log.getD args.prevLogIndex.toNat defaultEntry).term = args.prevLogTerm)
  · have hacc0 : args.prevLogIndex = -1 ∨
        (0 ≤ args.prevLogIndex ∧
          args.prevLogIndex < ((aeBody cm args now).log.length : Int) ∧
          ((aeBody cm args now).log.getD args.prevLogIndex.toNat defaultEntry).term
            = args.prevLogTerm) := by
      rw [hblog]
      by_cases hm : args.prevLogIndex = -1
      · exact Or.inl hm
      · rcases hacc with h | ⟨h1', h2'⟩
        · exact Or.inl h
        · exact Or.inr ⟨by omega, h1', h2'⟩
    rw [appendEntriesCore_accept (aeBody cm args now) args hacc0] at h1
    have hcm1 : cm1 = appendEntriesAccept (aeBody cm args now) args := by
      have := Option.some.inj h1
      exact (congrArg Prod.fst this).symm
    have hli : (args.prevLogIndex + 1).toNat ≤ cm.log.length := by
      rcases hacc with h | ⟨h1', _⟩ <;> omega
    have hlog1 : cm1.log =
        reconcileLog cm.log (args.prevLogIndex + 1).toNat args.entries := by
      rw [hcm1, appendEntriesAccept_log, hblog]
    have hct1 : cm1.currentTerm = cm.currentTerm := by
      rw [hcm1, appendEntriesAccept_currentTerm]
      exact aeBody_currentTerm cm args now ht
    have hst1 : cm1.state = CMState.Follower := by
      rw [hcm1, appendEntriesAccept_state]
      exact aeBody_state cm args now
    have hd2 : cm1.state ≠ CMState.Dead := by
      rw [hst1]
      intro hfd
      exact CMState.noConfusion hfd
    have ht2 : args.term = cm1.currentTerm := by rw [hct1]; exact ht
    have hblog2 : (aeBody cm1 args now').log = cm1.log := aeBody_log cm1 args now'
    have hacc2 : args.prevLogIndex = -1 ∨
        (0 ≤ args.prevLogIndex ∧
          args.prevLogIndex < ((aeBody cm1 args now').log.length : Int) ∧
          ((aeBody cm1 args now').log.getD args.prevLogIndex.toNat defaultEntry).term
            = args.prevLogTerm) := by
      rw [hblog2]
      by_cases hm : args.prevLogIndex = -1
      · exact Or.inl hm
      · rcases hacc with h | ⟨h1', h2'⟩
        · exact Or.inl h
        · right
          have hlen2 : (args.prevLogIndex + 1).toNat ≤ cm1.log.length := by
            rw [hlog1]
            exact reconcileLog_length_ge cm.log args.entries _ hli
          refine ⟨by omega, by omega, ?_⟩
          rw [hlog1,
            reconcileLog_getD_lt cm.log args.entries _ _ defaultEntry hli (by omega)]
          exact h2'
    rw [appendEntries_same_term cm1 args now' hd2 ht2,
      appendEntriesCore_accept (aeBody cm1 args now') args hacc2]
    refine ⟨_, _, rfl, rfl, ?_⟩
    rw [appendEntriesAccept_log, hblog2, hlog1,
      reconcileLog_idem cm.log args.entries _ hli]
  · have haccb : ¬ (args.prevLogIndex = -1 ∨
        (args.prevLogIndex < ((aeBody cm args now).log.length : Int) ∧
          ((aeBody cm args now).log.getD args.prevLogIndex.toNat defaultEntry).term
            = args.prevLogTerm)) := by
      rw [hblog]
      exact hacc
    rw [appendEntriesCore_reject (aeBody cm args now) args hp haccb] at h1
    have hr1 : r1 = { term := (aeBody cm args now).currentTerm, success := false } := by
      have := Option.some.inj h1
      exact (congrArg Prod.snd this).symm
    rw [hr1] at hs
    simp at hs

/-- C8: replaying an accepted AppendEntries request immediately after the
first application is again accepted and leaves the log unchanged — for every
replica state and every accepted request, including one whose higher term is
first caught up via `becomeFollower` (line 544). -/
theorem appendEntries_replay_log_unchanged (cm : ConsensusModule)
    (args : AppendEntriesArgs) (now now' : Int)
    (cm1 : ConsensusModule) (r1 : AppendEntriesReply)
    (hd : cm.state ≠ CMState.Dead)
    (hp : -1 ≤ args.prevLogIndex)
    (h1 : appendEntries cm args now = some (cm1, r1)) (hs : r1.success = true) :
    ∃ cm2 r2, appendEntries cm1 args now' = some (cm2, r2) ∧ r2.success = true ∧
      cm2.log = cm1.log := by
  unfold appendEntries at h1
  rw [if_neg hd] at h1
  set cmc := if args.term > cm.currentTerm then becomeFollower cm args.term now else cm
    with hcmc
  unfold appendEntriesOnLive at h1
  by_cases ht1 : args.term = cmc.currentTerm
  · rw [if_pos ht1] at h1
    have hdc : cmc.state ≠ CMState.Dead := by
      rw [hcmc]
      split
      · intro hfd
        exact CMState.noConfusion hfd
      · exact hd
    have h1' : appendEntries cmc args now = some (cm1, r1) := by
      rw [appendEntries_same_term cmc args now hdc ht1]
      exact h1
    exact appendEntries_replay_of_eq_term cmc args now now' cm1 r1 hdc ht1 hp h1' hs
  · rw [if_neg ht1] at h1
    have hsnd := congrArg Prod.snd (Option.some.inj h1)
    dsimp only at hsnd
    rw [← hsnd] at hs
    simp at hs

end Praft

namespace Praft

/-- C10: an AppendEntries call with a stale term (`args.term < currentTerm`)
on a non-Dead replica replies `(currentTerm, false)` and leaves the whole
replica state — including `electionResetEvent` — untouched. -/
theorem appendEntries_stale_term_noop (cm : ConsensusModule)
    (args : AppendEntriesArgs) (now : Int)
    (hd : cm.state ≠ CMState.Dead) (hlt : args.term < cm.currentTerm) :
    appendEntries cm args now =
      some (cm, { term := cm.currentTerm, success := false }) := by
  unfold appendEntries
  rw [if_neg hd]
  have hngt : ¬ args.term > cm.currentTerm := by omega
  rw [if_neg hngt]
  unfold appendEntriesOnLive
  rw [if_neg (by omega : ¬ args.term = cm.currentTerm)]

/-- C6: on a non-Dead replica, after the term-catch-up step the vote is
granted iff the terms agree, `votedFor` is free or already the candidate, and
the candidate's log is at least as up to date; a granted vote records the
candidate in `votedFor`, and the reply always carries the replica's (final)
current term. -/
theorem requestVote_grant_characterization (cm : ConsensusModule)
    (args : RequestVoteArgs) (now : Int) (hd : cm.state ≠ CMState.Dead) :
    ((requestVote cm args now).2.votedGranted = true ↔
      ((if args.term > cm.currentTerm then becomeFollower cm args.term now
          else cm).currentTerm = args.term ∧
        ((if args.term > cm.currentTerm then becomeFollower cm args.term now
            else cm).votedFor = -1 ∨
          (if args.term > cm.currentTerm then becomeFollower cm args.term now
            else cm).votedFor = args.candidateId) ∧
        (args.lastLogTerm > (lastLogIndexAndTerm cm).2 ∨
          (args.lastLogTerm = (lastLogIndexAndTerm cm).2 ∧
            args.lastLogIndex ≥ (lastLogIndexAndTerm cm).1)))) ∧
    ((requestVote cm args now).2.votedGranted = true →
      (requestVote cm args now).1.votedFor = args.candidateId) ∧
    (requestVote cm args now).2.term = (requestVote cm args now).1.currentTerm := by
  unfold requestVote
  rw [if_neg hd]
  set cm1 := if args.term > cm.currentTerm then becomeFollower cm args.term now else cm
    with hcm1
  unfold requestVoteCore
  by_cases hg : cm1.currentTerm = args.term ∧
      (cm1.votedFor = -1 ∨ cm1.votedFor = args.candidateId) ∧
      (args.lastLogTerm > (lastLogIndexAndTerm cm).2 ∨
        (args.lastLogTerm = (lastLogIndexAndTerm cm).2 ∧
          args.lastLogIndex ≥ (lastLogIndexAndTerm cm).1))
  · rw [if_pos hg]
    exact ⟨by simpa using hg, fun _ => rfl, rfl⟩
  · rw [if_neg hg]
    exact ⟨by simpa using hg, by simp, rfl⟩

/-- C9: `Submit` succeeds exactly on a Leader; success appends exactly
`LogEntry{command, currentTerm}` to the log, and failure leaves the replica
state untouched. -/
theorem submit_leader_characterization (cm : ConsensusModule) (c : Int) :
    ((submit cm c).2 = true ↔ cm.state = CMState.Leader) ∧
    (cm.state = CMState.Leader →
      (submit cm c).1.log = cm.log ++ [{ command := c, term := cm.currentTerm }]) ∧
    (cm.state ≠ CMState.Leader → (submit cm c).1 = cm) := by
  by_cases h : cm.state = CMState.Leader
  · refine ⟨by simp [submit, h], fun _ => ?_, fun hn => absurd h hn⟩
    simp [submit, h, persistToStorage]
  · refine ⟨by simp [submit, h], fun hl => absurd hl h, fun _ => ?_⟩
    simp [submit, h]

end Praft

namespace Praft

/-! ## The leader's commit-advancement scan -/

theorem commitScanIdxs_mem (logLen : Nat) (ci i : Int)
    (h : i ∈ commitScanIdxs logLen ci) :
    ci < i ∧ 0 ≤ i ∧ i.toNat < logLen := by
  unfold commitScanIdxs at h
  rw [List.mem_filter] at h
  obtain ⟨hmap, hflt⟩ := h
  rw [List.mem_map] at hmap
  obtain ⟨n, hn, heq⟩ := hmap
  rw [List.mem_range] at hn
  have hlt : ci < i := of_decide_eq_true hflt
  subst heq
  exact ⟨hlt, Int.natCast_nonneg n, by simpa using hn⟩

theorem commit_foldl_spec (log : List LogEntry) (tm : Int) (peers : List Int)
    (mi : List (Int × Int)) (ci : Int) :
    ∀ (l : List Int) (acc : Int),
      (∀ i ∈ l, ci < i ∧ 0 ≤ i ∧ i.toNat < log.length) →
      (acc = ci ∨ (ci < acc ∧ 0 ≤ acc ∧ acc.toNat < log.length ∧
        (log.getD acc.toNat defaultEntry).term = tm ∧
        matchCountAt peers mi acc * 2 > peers.length + 1)) →
      (l.foldl (fun a i =>
          if (log.getD i.toNat defaultEntry).term = tm ∧
              matchCountAt peers mi i * 2 > peers.length + 1 then i else a) acc = ci ∨
        (ci < l.foldl (fun a i =>
            if (log.getD i.toNat defaultEntry).term = tm ∧
                matchCountAt peers mi i * 2 > peers.length + 1 then i else a) acc ∧
          0 ≤ l.foldl (fun a i =>
            if (log.getD i.toNat defaultEntry).term = tm ∧
                matchCountAt peers mi i * 2 > peers.length + 1 then i else a) acc ∧
          (l.foldl (fun a i =>
            if (log.getD i.toNat defaultEntry).term = tm ∧
                matchCountAt peers mi i * 2 > peers.length + 1 then i else a) acc).toNat
              < log.length ∧
          (log.getD (l.foldl (fun a i =>
            if (log.getD i.toNat defaultEntry).term = tm ∧
                matchCountAt peers mi i * 2 > peers.length + 1 then i else a) acc).toNat
              defaultEntry).term = tm ∧
          matchCountAt peers mi (l.foldl (fun a i =>
            if (log.getD i.toNat defaultEntry).term = tm ∧
                matchCountAt peers mi i * 2 > peers.length + 1 then i else a) acc) * 2
              > peers.length + 1)) := by
  intro l
  induction l with
  | nil =>
    intro acc _ hacc
    simpa using hacc
  | cons i l ih =>
    intro acc hmem hacc
    have hi := hmem i (List.mem_cons_self i l)
    have hmem' : ∀ j ∈ l, ci < j ∧ 0 ≤ j ∧ j.toNat < log.length := by
      intro j hj
      exact hmem j (List.mem_cons_of_mem i hj)
    simp only [List.foldl_cons]
    by_cases hcond : (log.getD i.toNat defaultEntry).term = tm ∧
        matchCountAt peers mi i * 2 > peers.length + 1
    · rw [if_pos hcond]
      exact ih i hmem' (Or.inr ⟨hi.1, hi.2.1, hi.2.2, hcond.1, hcond.2⟩)
    · rw [if_neg hcond]
      exact ih acc hmem' hacc

/-- C5: when the leader processes a successful reply (still Leader, reply
term equal to the sent term), the new `commitIndex` either stays put or
moves to an index `i` strictly beyond the old one and inside the log whose
entry is of the current term and which, counting the leader itself and the
freshly updated `matchIndex`, is replicated on a strict majority
(`2·count > len(peerIds)+1`). -/
theorem leader_commit_advance_current_term_majority
    (cm : ConsensusModule) (peerId savedTerm ni : Int) (numEntries : Nat)
    (reply : AppendEntriesReply) (now : Int) (r : ConsensusModule)
    (mi' : List (Int × Int))
    (hL : cm.state = CMState.Leader) (hterm : savedTerm = reply.term)
    (hok : reply.success = true)
    (hr : r = processAppendReply cm peerId savedTerm ni numEntries reply now)
    (hmi : mi' = mapSet cm.matchIndex peerId
      (mapGet (mapSet cm.nextIndex peerId (ni + (numEntries : Int))) peerId - 1)) :
    r.commitIndex = cm.commitIndex ∨
      (cm.commitIndex < r.commitIndex ∧ 0 ≤ r.commitIndex ∧
        r.commitIndex.toNat < cm.log.length ∧
        (cm.log.getD r.commitIndex.toNat defaultEntry).term = cm.currentTerm ∧
        matchCountAt cm.peerIds mi' r.commitIndex * 2 > cm.peerIds.length + 1) := by
  subst hmi
  have hngt : ¬ reply.term > savedTerm := by omega
  rw [processAppendReply] at hr
  rw [if_neg hngt, if_pos ⟨hL, hterm⟩, if_pos hok] at hr
  have hr' : r.commitIndex =
      advanceCommitIndex cm.log cm.currentTerm cm.peerIds
        (mapSet cm.matchIndex peerId
          (mapGet (mapSet cm.nextIndex peerId (ni + (numEntries : Int))) peerId - 1))
        cm.commitIndex := by
    rw [hr]
  rw [hr']
  rw [advanceCommitIndex]
  exact commit_foldl_spec cm.log cm.currentTerm cm.peerIds _ cm.commitIndex
    (commitScanIdxs cm.log.length cm.commitIndex) cm.commitIndex
    (fun i hi => commitScanIdxs_mem cm.log.length cm.commitIndex i hi)
    (Or.inl rfl)

end Praft

namespace Praft

/-- A failed AppendEntries reply whose term equals the request's term can only
come from the consistency check, so the request carried a real
`prevLogIndex` (not the `-1` sentinel). -/
theorem appendEntries_fail_prevIndex_ne (cmF cmF1 : ConsensusModule)
    (args : AppendEntriesArgs) (now : Int) (reply : AppendEntriesReply)
    (hd : cmF.state ≠ CMState.Dead)
    (hh : appendEntries cmF args now = some (cmF1, reply))
    (hfail : reply.success = false) (hterm : reply.term = args.term) :
    args.prevLogIndex ≠ -1 := by
  unfold appendEntries at hh
  rw [if_neg hd] at hh
  set cm1 := if args.term > cmF.currentTerm then becomeFollower cmF args.term now else cmF
    with hcm1
  unfold appendEntriesOnLive at hh
  by_cases ht : args.term = cm1.currentTerm
  · rw [if_pos ht] at hh
    unfold appendEntriesCore at hh
    by_cases hpanic : args.prevLogIndex ≠ -1 ∧
        args.prevLogIndex < ((aeBody cm1 args now).log.length : Int) ∧
        args.prevLogIndex < 0
    · exact hpanic.1
    · rw [if_neg hpanic] at hh
      by_cases hacc : args.prevLogIndex = -1 ∨
          (args.prevLogIndex < ((aeBody cm1 args now).log.length : Int) ∧
            ((aeBody cm1 args now).log.getD args.prevLogIndex.toNat defaultEntry).term
              = args.prevLogTerm)
      · rw [if_pos hacc] at hh
        have hsnd := congrArg Prod.snd (Option.some.inj hh)
        dsimp only at hsnd
        rw [← hsnd] at hfail
        simp at hfail
      · rw [if_neg hacc] at hh
        intro hp
        exact hacc (Or.inl hp)
  · rw [if_neg ht] at hh
    have hsnd := congrArg Prod.snd (Option.some.inj hh)
    dsimp only at hsnd
    rw [← hsnd] at hterm
    exact absurd hterm.symm ht

/-- C3: when the leader, still in the sending term, processes a failed reply
from the actual handler of a live peer for a request it built itself, the
peer's `nextIndex` becomes exactly `max(nextIndex - 1, 0)` (the handler can
only fail a same-term request with `prevLogIndex ≥ 0`, so the decrement never
goes below 0). -/
theorem nextIndex_fail_decrement (cmL cmF cmF1 : ConsensusModule) (peer : Int)
    (args : AppendEntriesArgs) (reply : AppendEntriesReply) (now now' : Int)
    (hdF : cmF.state ≠ CMState.Dead)
    (hbuild : buildAppendEntriesArgs cmL cmL.currentTerm peer = some args)
    (hhandle : appendEntries cmF args now = some (cmF1, reply))
    (hfail : reply.success = false)
    (hterm : reply.term = cmL.currentTerm)
    (hstate : cmL.state = CMState.Leader) :
    mapGet (processAppendReply cmL peer cmL.currentTerm (mapGet cmL.nextIndex peer)
        args.entries.length reply now').nextIndex peer
      = max (mapGet cmL.nextIndex peer - 1) 0 := by
  unfold buildAppendEntriesArgs at hbuild
  by_cases hni : mapGet cmL.nextIndex peer < 0 ∨
      (cmL.log.length : Int) < mapGet cmL.nextIndex peer
  · rw [if_pos hni] at hbuild
    exact absurd hbuild (by simp)
  · rw [if_neg hni] at hbuild
    push_neg at hni
    have hargs := Option.some.inj hbuild
    have hat : args.term = cmL.currentTerm := by rw [← hargs]
    have hap : args.prevLogIndex = mapGet cmL.nextIndex peer - 1 := by rw [← hargs]
    have hne : args.prevLogIndex ≠ -1 :=
      appendEntries_fail_prevIndex_ne cmF cmF1 args now reply hdF hhandle hfail
        (by rw [hat]; exact hterm)
    have hnipos : 1 ≤ mapGet cmL.nextIndex peer := by
      rw [hap] at hne
      omega
    unfold processAppendReply
    rw [if_neg (show ¬ reply.term > cmL.currentTerm by omega)]
    rw [if_pos ⟨hstate, hterm.symm⟩]
    rw [if_neg (show ¬ reply.success = true by simp [hfail])]
    show mapGet (mapSet cmL.nextIndex peer (mapGet cmL.nextIndex peer - 1)) peer
      = max (mapGet cmL.nextIndex peer - 1) 0
    rw [mapGet_mapSet_self]
    omega

end Praft

namespace Praft

/-! ## Mutex/channel event traces of the code paths that send on the
internal channels (`newCommitReadyChan`, `triggerAEChan`) -/

/-- The two internal notification channels of `ConsensusModule`. -/
inductive Chan
  | newCommitReady
  | triggerAE
  deriving DecidableEq

/-- Mutex and channel-send events, in program order; `blocking = false`
would be a `select`-with-`default` send (the source only uses plain
blocking sends `ch <- struct{}{}`). -/
inductive Ev
  | lock
  | unlock
  | send (ch : Chan) (blocking : Bool)
  deriving DecidableEq

/-- All channel sends of a trace. -/
def sendsIn : List Ev → List (Chan × Bool)
  | [] => []
  | Ev.lock :: r => sendsIn r
  | Ev.unlock :: r => sendsIn r
  | Ev.send c b :: r => (c, b) :: sendsIn r

/-- The channel sends of a trace performed while the mutex is held
(`d` = current hold depth). -/
def sendsHeld : Nat → List Ev → List (Chan × Bool)
  | _, [] => []
  | d, Ev.lock :: r => sendsHeld (d + 1) r
  | d, Ev.unlock :: r => sendsHeld (d - 1) r
  | d, Ev.send c b :: r => if 0 < d then (c, b) :: sendsHeld d r else sendsHeld d r

/-- Event trace of `Submit` (lines 128–144): lock; on a Leader, unlock and
then send (blocking) on `triggerAEChan`; otherwise just unlock. -/
def submitEvents (cm : ConsensusModule) : List Ev :=
  if cm.state = CMState.Leader then
    [Ev.lock, Ev.unlock, Ev.send Chan.triggerAE true]
  else
    [Ev.lock, Ev.unlock]

/-- Event trace of the `AppendEntries` handler body on the caught-up state
`cm1`: the deferred unlock closes the trace, and the only send — a blocking
send on `newCommitReadyChan` at line 590 — happens between lock and unlock
when a same-term accepted request advances `commitIndex`. -/
def appendEntriesEventsOnLive (cm1 : ConsensusModule) (args : AppendEntriesArgs)
    (now : Int) : List Ev :=
  if args.term = cm1.currentTerm ∧
      (args.prevLogIndex = -1 ∨
        (args.prevLogIndex < ((aeBody cm1 args now).log.length : Int) ∧
          ((aeBody cm1 args now).log.getD args.prevLogIndex.toNat defaultEntry).term
            = args.prevLogTerm)) ∧
      args.leaderCommit > (aeBody cm1 args now).commitIndex then
    [Ev.lock, Ev.send Chan.newCommitReady true, Ev.unlock]
  else
    [Ev.lock, Ev.unlock]

/-- Event trace of the `AppendEntries` handler (lines 536–598), for the
non-panicking inputs. -/
def appendEntriesEvents (cm : ConsensusModule) (args : AppendEntriesArgs)
    (now : Int) : List Ev :=
  if cm.state = CMState.Dead then
    [Ev.lock, Ev.unlock]
  else
    appendEntriesEventsOnLive
      (if args.term > cm.currentTerm then becomeFollower cm args.term now else cm)
      args now

/-- Event trace of the leader's reply processing in `sendAppendEntries`
(lines 373–411): lock with a deferred unlock; when the commit scan advanced
`commitIndex`, blocking sends on `newCommitReadyChan` and `triggerAEChan`
(lines 404–405) are performed before the deferred unlock. -/
def processAppendReplyEvents (cm : ConsensusModule)
    (peerId savedCurrentTerm ni : Int) (numEntries : Nat)
    (reply : AppendEntriesReply) (_now : Int) : List Ev :=
  if reply.term > savedCurrentTerm then
    [Ev.lock, Ev.unlock]
  else if cm.state = CMState.Leader ∧ savedCurrentTerm = reply.term then
    if reply.success then
      if advanceCommitIndex cm.log cm.currentTerm cm.peerIds
          (mapSet cm.matchIndex peerId
            (mapGet (mapSet cm.nextIndex peerId (ni + (numEntries : Int))) peerId - 1))
          cm.commitIndex ≠ cm.commitIndex then
        [Ev.lock, Ev.send Chan.newCommitReady true, Ev.send Chan.triggerAE true,
          Ev.unlock]
      else
        [Ev.lock, Ev.unlock]
    else
      [Ev.lock, Ev.unlock]
  else
    [Ev.lock, Ev.unlock]

/-- `true` when every send on `triggerAEChan` in the list is non-blocking. -/
def trigSendsNonBlocking (l : List (Chan × Bool)) : Prop :=
  ∀ p ∈ l, p.1 = Chan.triggerAE → p.2 = false

/-- C4 as stated: no code path sends on an internal channel while holding
the mutex, and every send on `triggerAEChan` is non-blocking. -/
def NoSendUnderMutexProp : Prop :=
  (∀ (cm : ConsensusModule) (args : AppendEntriesArgs) (now : Int),
    sendsHeld 0 (appendEntriesEvents cm args now) = [] ∧
    trigSendsNonBlocking (sendsIn (appendEntriesEvents cm args now))) ∧
  (∀ (cm : ConsensusModule) (peerId savedCurrentTerm ni : Int) (numEntries : Nat)
      (reply : AppendEntriesReply) (now : Int),
    sendsHeld 0 (processAppendReplyEvents cm peerId savedCurrentTerm ni numEntries
      reply now) = [] ∧
    trigSendsNonBlocking (sendsIn (processAppendReplyEvents cm peerId
      savedCurrentTerm ni numEntries reply now))) ∧
  (∀ cm : ConsensusModule,
    sendsHeld 0 (submitEvents cm) = [] ∧
    trigSendsNonBlocking (sendsIn (submitEvents cm)))

/-- C4 counterexample: an accepted heartbeat that advances `commitIndex`
makes the `AppendEntries` handler send on `newCommitReadyChan` while holding
the mutex (line 590 runs before the deferred unlock), so the claimed
discipline is false. -/
theorem no_send_under_mutex_refuted : ¬ NoSendUnderMutexProp := by
  intro h
  have h1 := (h.1 (mkConsensusModule 0 [1, 2])
    { term := 0, leaderId := 1, prevLogIndex := -1, prevLogTerm := -1,
      entries := [{ command := 5, term := 0 }], leaderCommit := 0 } 1).1
  exact absurd h1 (by decide)

/-- C4 amended: every internal-channel send in the module is a plain
blocking send; the `AppendEntries` handler and the leader's reply
processing perform all their sends while holding the mutex (relying on the
channels' buffering), and `Submit` is the only path that sends after
releasing the mutex — its send is still blocking. -/
theorem internal_sends_blocking_and_under_mutex :
    (∀ (cm : ConsensusModule) (args : AppendEntriesArgs) (now : Int),
      sendsHeld 0 (appendEntriesEvents cm args now)
          = sendsIn (appendEntriesEvents cm args now) ∧
      ∀ p ∈ sendsIn (appendEntriesEvents cm args now), p.2 = true) ∧
    (∀ (cm : ConsensusModule) (peerId savedCurrentTerm ni : Int) (numEntries : Nat)
        (reply : AppendEntriesReply) (now : Int),
      sendsHeld 0 (processAppendReplyEvents cm peerId savedCurrentTerm ni numEntries
          reply now)
          = sendsIn (processAppendReplyEvents cm peerId savedCurrentTerm ni numEntries
          reply now) ∧
      ∀ p ∈ sendsIn (processAppendReplyEvents cm peerId savedCurrentTerm ni
          numEntries reply now), p.2 = true) ∧
    (∀ cm : ConsensusModule,
      submitEvents cm = if cm.state = CMState.Leader
        then [Ev.lock, Ev.unlock, Ev.send Chan.triggerAE true]
        else [Ev.lock, Ev.unlock]) := by
  refine ⟨?_, ?_, ?_⟩
  · intro cm args now
    unfold appendEntriesEvents appendEntriesEventsOnLive
    split_ifs <;> simp [sendsHeld, sendsIn]
  · intro cm peerId savedCurrentTerm ni numEntries reply now
    unfold processAppendReplyEvents
    split_ifs <;> simp [sendsHeld, sendsIn]
  · intro cm
    rfl

end Praft

namespace Praft

/-! ## Votes per term (C2) -/

theorem aeBody_votedFor (cm1 : ConsensusModule) (args : AppendEntriesArgs) (now : Int) :
    (aeBody cm1 args now).votedFor = cm1.votedFor ∨
      (aeBody cm1 args now).votedFor = -1 := by
  unfold aeBody becomeFollower
  split
  · right; rfl
  · left; rfl

theorem appendEntriesAccept_votedFor (cm3 : ConsensusModule) (args : AppendEntriesArgs) :
    (appendEntriesAccept cm3 args).votedFor = cm3.votedFor := by
  unfold appendEntriesAccept
  split <;> rfl

/-- Whatever an `AppendEntries` call does, `votedFor` afterwards is either
untouched or reset to the sentinel `-1` (by a step-down). -/
theorem appendEntries_votedFor_cases (cm : ConsensusModule)
    (args : AppendEntriesArgs) (now : Int) (cm' : ConsensusModule)
    (r : AppendEntriesReply)
    (hh : appendEntries cm args now = some (cm', r)) :
    cm'.votedFor = cm.votedFor ∨ cm'.votedFor = -1 := by
  unfold appendEntries at hh
  by_cases hd : cm.state = CMState.Dead
  · rw [if_pos hd] at hh
    have := congrArg Prod.fst (Option.some.inj hh)
    dsimp only at this
    rw [← this]
    exact Or.inl rfl
  · rw [if_neg hd] at hh
    set cm1 := if args.term > cm.currentTerm then becomeFollower cm args.term now else cm
      with hcm1
    have hv1 : cm1.votedFor = cm.votedFor ∨ cm1.votedFor = -1 := by
      rw [hcm1]
      split
      · right; rfl
      · left; rfl
    unfold appendEntriesOnLive at hh
    by_cases ht : args.term = cm1.currentTerm
    · rw [if_pos ht] at hh
      have hb : (aeBody cm1 args now).votedFor = cm.votedFor ∨
          (aeBody cm1 args now).votedFor = -1 := by
        rcases aeBody_votedFor cm1 args now with h | h
        · rw [h]; exact hv1
        · exact Or.inr h
      unfold appendEntriesCore at hh
      split at hh
      · exact absurd hh (by simp)
      · split at hh
        · have := congrArg Prod.fst (Option.some.inj hh)
          dsimp only at this
          rw [← this, appendEntriesAccept_votedFor]
          exact hb
        · have := congrArg Prod.fst (Option.some.inj hh)
          dsimp only at this
          rw [← this]
          exact hb
    · rw [if_neg ht] at hh
      have := congrArg Prod.fst (Option.some.inj hh)
      dsimp only at this
      rw [← this]
      exact hv1

theorem requestVoteCore_currentTerm (cm1 : ConsensusModule) (ll : Int × Int)
    (args : RequestVoteArgs) (now : Int) :
    (requestVoteCore cm1 ll args now).1.currentTerm = cm1.currentTerm := by
  unfold requestVoteCore
  split_ifs <;> rfl

/-- C2 amended, step form: an operation that leaves `currentTerm` unchanged
never moves `votedFor` from one non-sentinel peer id straight to another:
it either keeps it or resets it to `-1` (the same-term step-down in
`AppendEntries`/`becomeFollower`), after which a later same-term operation
may grant a second, different vote. -/
theorem votedFor_step_same_term (cm : ConsensusModule) (op : Op)
    (hv : cm.votedFor ≠ -1)
    (ht : (applyOp cm op).currentTerm = cm.currentTerm) :
    (applyOp cm op).votedFor = cm.votedFor ∨ (applyOp cm op).votedFor = -1 := by
  cases op with
  | requestVoteOp args now =>
    have ht' : (requestVote cm args now).1.currentTerm = cm.currentTerm := ht
    show (requestVote cm args now).1.votedFor = cm.votedFor ∨
      (requestVote cm args now).1.votedFor = -1
    unfold requestVote at ht' ⊢
    by_cases hd : cm.state = CMState.Dead
    · rw [if_pos hd]
      exact Or.inl rfl
    · rw [if_neg hd] at ht' ⊢
      by_cases hgt : args.term > cm.currentTerm
      · exfalso
        rw [if_pos hgt, requestVoteCore_currentTerm] at ht'
        unfold becomeFollower at ht'
        dsimp only at ht'
        omega
      · rw [if_neg hgt] at ht' ⊢
        unfold requestVoteCore
        split_ifs with hg
        · rcases hg.2.1 with h1 | h2
          · exact absurd h1 hv
          · exact Or.inl h2.symm
        · exact Or.inl rfl
  | appendEntriesOp args now =>
    show (match appendEntries cm args now with
      | some r => r.1
      | none => cm).votedFor = cm.votedFor ∨
      (match appendEntries cm args now with
      | some r => r.1
      | none => cm).votedFor = -1
    cases hh : appendEntries cm args now with
    | none => exact Or.inl rfl
    | some res =>
      exact appendEntries_votedFor_cases cm args now res.1 res.2 (by rw [hh])
  | startElectionOp now =>
    exfalso
    have h1 : (applyOp cm (Op.startElectionOp now)).currentTerm
        = cm.currentTerm + 1 := rfl
    omega
  | becomeFollowerOp t now =>
    exact Or.inr rfl

end Praft

namespace Praft

/-- C2 as stated: starting from a fresh replica (id 0, peers {1, 2}), any two
points of any operation sequence that show the same `currentTerm` and a
non-sentinel `votedFor` show the same `votedFor` — i.e. at most one distinct
non-sentinel vote per term. -/
def VotedForUniquePerTermProp : Prop :=
  ∀ (ops : List Op) (i j : Nat),
    (runOps (mkConsensusModule 0 [1, 2]) (List.take i ops)).currentTerm
        = (runOps (mkConsensusModule 0 [1, 2]) (List.take j ops)).currentTerm →
    (runOps (mkConsensusModule 0 [1, 2]) (List.take i ops)).votedFor ≠ -1 →
    (runOps (mkConsensusModule 0 [1, 2]) (List.take j ops)).votedFor ≠ -1 →
    (runOps (mkConsensusModule 0 [1, 2]) (List.take i ops)).votedFor
      = (runOps (mkConsensusModule 0 [1, 2]) (List.take j ops)).votedFor

/-- C2 counterexample: a Candidate of term 1 (voted for itself, id 0) that
receives a same-term AppendEntries steps down with `votedFor` reset to `-1`
and then grants the same term's vote to replica 2 — two distinct
non-sentinel votes in term 1 without the term increasing. -/
theorem votedFor_unique_per_term_refuted : ¬ VotedForUniquePerTermProp := by
  intro h
  have h2 := h
    [Op.startElectionOp 1,
     Op.appendEntriesOp
       { term := 1, leaderId := 1, prevLogIndex := -1, prevLogTerm := -1,
         entries := [], leaderCommit := -1 } 2,
     Op.requestVoteOp
       { term := 1, candidateId := 2, lastLogIndex := -1, lastLogTerm := -1 } 3]
    1 3 (by decide) (by decide) (by decide)
  exact absurd h2 (by decide)

end Praft

namespace Praft

/-- C1 (code bug): the `RequestVote` handler changes `currentTerm` and
`votedFor` (term catch-up and vote grant) but never calls
`persistToStorage` — the handler body (lines 489–517) contains no persist
call — so at the moment the reply is emitted the storage still holds the
old triple and differs from the in-memory persistent fields.  Shown on a
freshly-restored follower granting a vote for term 1. -/
theorem requestVote_grant_not_persisted :
    ((requestVote
        { mkConsensusModule 0 [1, 2] with storage := some (0, -1, []) }
        { term := 1, candidateId := 1, lastLogIndex := -1, lastLogTerm := -1 }
        5).2.votedGranted = true) ∧
    ((requestVote
        { mkConsensusModule 0 [1, 2] with storage := some (0, -1, []) }
        { term := 1, candidateId := 1, lastLogIndex := -1, lastLogTerm := -1 }
        5).1.currentTerm = 1) ∧
    ((requestVote
        { mkConsensusModule 0 [1, 2] with storage := some (0, -1, []) }
        { term := 1, candidateId := 1, lastLogIndex := -1, lastLogTerm := -1 }
        5).1.votedFor = 1) ∧
    ((requestVote
        { mkConsensusModule 0 [1, 2] with storage := some (0, -1, []) }
        { term := 1, candidateId := 1, lastLogIndex := -1, lastLogTerm := -1 }
        5).1.storage = some (0, -1, [])) ∧
    ((requestVote
        { mkConsensusModule 0 [1, 2] with storage := some (0, -1, []) }
        { term := 1, candidateId := 1, lastLogIndex := -1, lastLogTerm := -1 }
        5).1.storage ≠
      some ((requestVote
        { mkConsensusModule 0 [1, 2] with storage := some (0, -1, []) }
        { term := 1, candidateId := 1, lastLogIndex := -1, lastLogTerm := -1 }
        5).1.currentTerm,
        (requestVote
        { mkConsensusModule 0 [1, 2] with storage := some (0, -1, []) }
        { term := 1, candidateId := 1, lastLogIndex := -1, lastLogTerm := -1 }
        5).1.votedFor,
        (requestVote
        { mkConsensusModule 0 [1, 2] with storage := some (0, -1, []) }
        { term := 1, candidateId := 1, lastLogIndex := -1, lastLogTerm := -1 }
        5).1.log)) := by
  decide

end Praft

namespace Praft

/-! ## Concrete witnesses -/

/-- A leader of term 1 with one entry, `nextIndex[1] = nextIndex[2] = 1`. -/
def c3Leader : ConsensusModule :=
  { mkConsensusModule 0 [1, 2] with
    state := CMState.Leader
    currentTerm := 1
    log := [{ command := 7, term := 1 }]
    nextIndex := [(1, 1), (2, 1)]
    matchIndex := [(1, -1), (2, -1)] }

/-- A follower of term 1 with an empty log (it will fail the consistency
check for `prevLogIndex = 0`). -/
def c3Follower : ConsensusModule :=
  { mkConsensusModule 1 [0, 2] with currentTerm := 1 }

/-- The request `c3Leader` builds for peer 1. -/
def c3Args : AppendEntriesArgs :=
  { term := 1
    leaderId := 0
    prevLogIndex := 0
    prevLogTerm := 1
    entries := []
    leaderCommit := -1 }

theorem nextIndex_fail_decrement_witness :
    mapGet (processAppendReply c3Leader 1 c3Leader.currentTerm
        (mapGet c3Leader.nextIndex 1) c3Args.entries.length
        { term := 1, success := false } 9).nextIndex 1
      = max (mapGet c3Leader.nextIndex 1 - 1) 0 :=
  nextIndex_fail_decrement c3Leader c3Follower
    { c3Follower with electionResetEvent := 8 } 1 c3Args
    { term := 1, success := false } 8 9
    (by decide) (by decide) (by decide) (by decide) (by decide) (by decide)

/-- A leader of term 1 whose single entry reaches a majority once peer 1
acknowledges it. -/
def c5Leader : ConsensusModule :=
  { mkConsensusModule 0 [1, 2] with
    state := CMState.Leader
    currentTerm := 1
    log := [{ command := 7, term := 1 }]
    nextIndex := [(1, 0), (2, 0)]
    matchIndex := [(1, -1), (2, -1)] }

theorem leader_commit_advance_witness :
    (processAppendReply c5Leader 1 1 0 1 { term := 1, success := true } 9).commitIndex
        = c5Leader.commitIndex ∨
      (c5Leader.commitIndex <
          (processAppendReply c5Leader 1 1 0 1
            { term := 1, success := true } 9).commitIndex ∧
        0 ≤ (processAppendReply c5Leader 1 1 0 1
            { term := 1, success := true } 9).commitIndex ∧
        (processAppendReply c5Leader 1 1 0 1
            { term := 1, success := true } 9).commitIndex.toNat < c5Leader.log.length ∧
        (c5Leader.log.getD (processAppendReply c5Leader 1 1 0 1
            { term := 1, success := true } 9).commitIndex.toNat defaultEntry).term
          = c5Leader.currentTerm ∧
        matchCountAt c5Leader.peerIds (mapSet c5Leader.matchIndex 1 0)
            ((processAppendReply c5Leader 1 1 0 1
              { term := 1, success := true } 9).commitIndex) * 2
          > c5Leader.peerIds.length + 1) :=
  leader_commit_advance_current_term_majority c5Leader 1 1 0 1
    { term := 1, success := true } 9
    (processAppendReply c5Leader 1 1 0 1 { term := 1, success := true } 9)
    (mapSet c5Leader.matchIndex 1 0)
    (by decide) (by decide) (by decide) rfl (by decide)

theorem requestVote_grant_characterization_witness :
    ((requestVote (mkConsensusModule 0 [1, 2])
        { term := 1, candidateId := 2, lastLogIndex := -1, lastLogTerm := -1 }
        5).2.votedGranted = true ↔
      ((if (1 : Int) > (mkConsensusModule 0 [1, 2]).currentTerm
          then becomeFollower (mkConsensusModule 0 [1, 2]) 1 5
          else mkConsensusModule 0 [1, 2]).currentTerm = 1 ∧
        ((if (1 : Int) > (mkConsensusModule 0 [1, 2]).currentTerm
            then becomeFollower (mkConsensusModule 0 [1, 2]) 1 5
            else mkConsensusModule 0 [1, 2]).votedFor = -1 ∨
          (if (1 : Int) > (mkConsensusModule 0 [1, 2]).currentTerm
            then becomeFollower (mkConsensusModule 0 [1, 2]) 1 5
            else mkConsensusModule 0 [1, 2]).votedFor = 2) ∧
        ((-1 : Int) > (lastLogIndexAndTerm (mkConsensusModule 0 [1, 2])).2 ∨
          ((-1 : Int) = (lastLogIndexAndTerm (mkConsensusModule 0 [1, 2])).2 ∧
            (-1 : Int) ≥ (lastLogIndexAndTerm (mkConsensusModule 0 [1, 2])).1)))) ∧
    ((requestVote (mkConsensusModule 0 [1, 2])
        { term := 1, candidateId := 2, lastLogIndex := -1, lastLogTerm := -1 }
        5).2.votedGranted = true →
      (requestVote (mkConsensusModule 0 [1, 2])
        { term := 1, candidateId := 2, lastLogIndex := -1, lastLogTerm := -1 }
        5).1.votedFor = 2) ∧
    (requestVote (mkConsensusModule 0 [1, 2])
        { term := 1, candidateId := 2, lastLogIndex := -1, lastLogTerm := -1 }
        5).2.term
      = (requestVote (mkConsensusModule 0 [1, 2])
        { term := 1, candidateId := 2, lastLogIndex := -1, lastLogTerm := -1 }
        5).1.currentTerm :=
  requestVote_grant_characterization (mkConsensusModule 0 [1, 2])
    { term := 1, candidateId := 2, lastLogIndex := -1, lastLogTerm := -1 } 5
    (by decide)

end Praft

namespace Praft

/-- A leader's first append to a fresh follower: no prior entry, one new
entry of term 0. -/
def c7Args : AppendEntriesArgs :=
  { term := 0
    leaderId := 1
    prevLogIndex := -1
    prevLogTerm := -1
    entries := [{ command := 5, term := 0 }]
    leaderCommit := -1 }

theorem appendEntries_accept_characterization_witness :
    ∃ cm' reply,
      appendEntries (mkConsensusModule 0 [1, 2]) c7Args 1 = some (cm', reply) ∧
      (reply.success = true ↔
        (c7Args.prevLogIndex = -1 ∨
          (c7Args.prevLogIndex < ((mkConsensusModule 0 [1, 2]).log.length : Int) ∧
            ((mkConsensusModule 0 [1, 2]).log.getD c7Args.prevLogIndex.toNat
              defaultEntry).term = c7Args.prevLogTerm))) ∧
      (reply.success = true →
        ∃ k, k ≤ c7Args.entries.length ∧
          (∀ i, i < k →
            (c7Args.prevLogIndex + 1).toNat + i < (mkConsensusModule 0 [1, 2]).log.length ∧
            ((mkConsensusModule 0 [1, 2]).log.getD
                ((c7Args.prevLogIndex + 1).toNat + i) defaultEntry).term
              = (c7Args.entries.getD i defaultEntry).term) ∧
          (k < c7Args.entries.length →
            (mkConsensusModule 0 [1, 2]).log.length ≤ (c7Args.prevLogIndex + 1).toNat + k ∨
            ((mkConsensusModule 0 [1, 2]).log.getD
                ((c7Args.prevLogIndex + 1).toNat + k) defaultEntry).term
              ≠ (c7Args.entries.getD k defaultEntry).term) ∧
          (k = c7Args.entries.length → cm'.log = (mkConsensusModule 0 [1, 2]).log) ∧
          (k < c7Args.entries.length →
            cm'.log = (mkConsensusModule 0 [1, 2]).log.take ((c7Args.prevLogIndex + 1).toNat + k)
              ++ c7Args.entries.drop k)) :=
  appendEntries_accept_characterization (mkConsensusModule 0 [1, 2]) c7Args 1
    (by decide) (by decide) (by decide)

/-- A new leader's first append carrying a higher term (1) to a fresh
follower (term 0): accepted after the term catch-up. -/
def c8Args : AppendEntriesArgs :=
  { term := 1
    leaderId := 1
    prevLogIndex := -1
    prevLogTerm := -1
    entries := [{ command := 5, term := 1 }]
    leaderCommit := -1 }

theorem appendEntries_replay_log_unchanged_witness :
    ∃ cm2 r2,
      appendEntries
        { mkConsensusModule 0 [1, 2] with
          currentTerm := 1
          electionResetEvent := 1
          log := [{ command := 5, term := 1 }] }
        c8Args 2 = some (cm2, r2) ∧ r2.success = true ∧
      cm2.log = ({ mkConsensusModule 0 [1, 2] with
          currentTerm := 1
          electionResetEvent := 1
          log := [{ command := 5, term := 1 }] } : ConsensusModule).log :=
  appendEntries_replay_log_unchanged (mkConsensusModule 0 [1, 2]) c8Args 1 2
    { mkConsensusModule 0 [1, 2] with
      currentTerm := 1
      electionResetEvent := 1
      log := [{ command := 5, term := 1 }] }
    { term := 1, success := true }
    (by decide) (by decide) (by decide) (by decide)

theorem submit_leader_characterization_witness :
    (submit
        { mkConsensusModule 0 [1, 2] with
          state := CMState.Leader
          currentTerm := 2 } 7).1.log = [{ command := 7, term := 2 }] :=
  (submit_leader_characterization
    { mkConsensusModule 0 [1, 2] with
      state := CMState.Leader
      currentTerm := 2 } 7).2.1 rfl

theorem appendEntries_stale_term_noop_witness :
    appendEntries { mkConsensusModule 0 [1, 2] with currentTerm := 5 }
        { term := 3
          leaderId := 1
          prevLogIndex := -1
          prevLogTerm := -1
          entries := []
          leaderCommit := -1 } 9
      = some ({ mkConsensusModule 0 [1, 2] with currentTerm := 5 },
          { term := 5, success := false }) :=
  appendEntries_stale_term_noop { mkConsensusModule 0 [1, 2] with currentTerm := 5 }
    { term := 3
      leaderId := 1
      prevLogIndex := -1
      prevLogTerm := -1
      entries := []
      leaderCommit := -1 } 9
    (by decide) (by decide)

theorem votedFor_step_same_term_witness :
    (applyOp
        { mkConsensusModule 0 [1, 2] with
          votedFor := 1
          currentTerm := 3 }
        (Op.requestVoteOp
          { term := 3, candidateId := 2, lastLogIndex := 0, lastLogTerm := 0 }
          4)).votedFor
        = ({ mkConsensusModule 0 [1, 2] with
            votedFor := 1
            currentTerm := 3 } : ConsensusModule).votedFor ∨
      (applyOp
        { mkConsensusModule 0 [1, 2] with
          votedFor := 1
          currentTerm := 3 }
        (Op.requestVoteOp
          { term := 3, candidateId := 2, lastLogIndex := 0, lastLogTerm := 0 }
          4)).votedFor = -1 :=
  votedFor_step_same_term
    { mkConsensusModule 0 [1, 2] with
      votedFor := 1
      currentTerm := 3 }
    (Op.requestVoteOp
      { term := 3, candidateId := 2, lastLogIndex := 0, lastLogTerm := 0 } 4)
    (by decide) (by decide)

theorem internal_sends_blocking_witness :
    submitEvents (mkConsensusModule 0 [1, 2])
      = if (mkConsensusModule 0 [1, 2]).state = CMState.Leader
          then [Ev.lock, Ev.unlock, Ev.send Chan.triggerAE true]
          else [Ev.lock, Ev.unlock] :=
  internal_sends_blocking_and_under_mutex.2.2 (mkConsensusModule 0 [1, 2])

end Praft
